import Mathlib

/-!
Verification of the training/checkpoint orchestration of `exp_runner_high.py`
(3D-Inspection-Using-NeuS, HFS runner).  Each Python routine relevant to the
claims is shallowly embedded as an executable Lean definition, and the claims
are settled as theorems about those definitions.
-/

namespace NeuSRunner

/-! ## Checkpoint-directory scan (`Runner.__init__`, lines 108-127)

The Python loop is

    model_list_raw = os.listdir(os.path.join(self.base_exp_dir, 'checkpoints'))
    model_list = []
    num = -1
    for model_name in model_list_raw:
        iter = int(model_name[5:-4])
        if model_name[-3:] == 'pth' and iter <= self.end_iter:
            if iter > num:
                num = iter
                model_list = model_name
    latest_model_name = model_list

Note that `int(model_name[5:-4])` runs before the suffix test, so a name whose
slice is not an integer literal raises `ValueError`.  We model the raised
exception as `Except.error` carrying the offending file name. -/

/-- Value of a list of decimal digit characters, as Python's `int` computes it. -/
def digitsVal (l : List Char) : Nat :=
  l.foldl (fun a c => a * 10 + (c.toNat - 48)) 0

/-- Model of Python `int(s)` restricted to the strings that occur here:
it succeeds exactly on nonempty all-digit strings (e.g. zero-padded iteration
counts) and fails (raises) on anything else, such as the empty slice or a slice
containing letters.  (Python's `int` also accepts signs and surrounding
whitespace, which never occur in directory listings relevant to the claims.) -/
def pyIntChars (l : List Char) : Option Int :=
  if l ≠ [] ∧ l.all (·.isDigit) then some (digitsVal l) else none

/-- Drop the last `n` elements of a list. -/
def dropRightN (l : List Char) (n : Nat) : List Char :=
  l.take (l.length - n)

/-- Python slice `model_name[5:-4]` (drop the first 5 and last 4 characters). -/
def sliceName (s : String) : List Char :=
  dropRightN (s.data.drop 5) 4

/-- The iteration number embedded in a checkpoint file name:
`int(model_name[5:-4])` as a partial function. -/
def embeddedIter (f : String) : Option Int :=
  pyIntChars (sliceName f)

/-- Python test `model_name[-3:] == 'pth'`. -/
def hasPthSuffix (f : String) : Bool :=
  f.data.drop (f.data.length - 3) = ['p', 't', 'h']

/-- The scan loop over the directory listing, carrying the accumulator
`num` (best iteration seen, initially `-1`) and `best` (the chosen name;
`none` models the initial Python value `[]`, which is never a file name). -/
def scanAux (endIter : Int) : List String → Int → Option String →
    Except String (Option String)
  | [], _, best => Except.ok best
  | f :: rest, num, best =>
    match embeddedIter f with
    | none => Except.error f
    | some it =>
      if hasPthSuffix f = true ∧ it ≤ endIter ∧ num < it then
        scanAux endIter rest it (some f)
      else
        scanAux endIter rest num best

/-- The whole scan: `Except.error f` models the `ValueError` raised at file
`f`; `Except.ok none` models `model_list` still being the initial `[]`;
`Except.ok (some b)` models `latest_model_name = b`. -/
def scanCkpts (endIter : Int) (files : List String) : Except String (Option String) :=
  scanAux endIter files (-1) none

/-- Model of the `--is_continue` argparse flag: declared as
`default=True, action="store_true"`, so it parses to `True` whether or not the
flag is present on the command line. -/
def parsedIsContinue (flagPresent : Bool) : Bool :=
  if flagPresent then true else true

/-- Model of the checkpoint-loading part of `Runner.__init__` (lines 108-127).
`ckptDir = none` models a missing `checkpoints` directory (`os.listdir`
raises `FileNotFoundError`); when the scan leaves `model_list = []`,
`load_checkpoint([])` raises a `TypeError` inside `os.path.join`.
`Except.ok (some b)` means checkpoint `b` is loaded; `Except.ok none`
means no load is attempted (fresh run). -/
def runnerInitLoad (isContinue : Bool) (ckptName : Option String)
    (ckptDir : Option (List String)) (endIter : Int) :
    Except String (Option String) :=
  if isContinue then
    match ckptName with
    | some n => Except.ok (some n)
    | none =>
      match ckptDir with
      | none => Except.error "FileNotFoundError: no checkpoints directory"
      | some files =>
        match scanCkpts endIter files with
        | Except.error f => Except.error f
        | Except.ok none => Except.error "TypeError: load_checkpoint received the empty list"
        | Except.ok (some b) => Except.ok (some b)
  else
    Except.ok none

instance {ε α : Type} [DecidableEq ε] [DecidableEq α] : DecidableEq (Except ε α) :=
  fun a b =>
    match a, b with
    | Except.ok x, Except.ok y =>
      if h : x = y then isTrue (by rw [h]) else
        isFalse (fun hh => h (Except.ok.injEq .. ▸ hh))
    | Except.error x, Except.error y =>
      if h : x = y then isTrue (by rw [h]) else
        isFalse (fun hh => h (Except.error.injEq .. ▸ hh))
    | Except.ok _, Except.error _ => isFalse (fun hh => Except.noConfusion hh)
    | Except.error _, Except.ok _ => isFalse (fun hh => Except.noConfusion hh)

/-- A file qualifies for selection when its name slice parses to `k`, it has
the `pth` suffix, and `k` does not exceed the configured end iteration. -/
def Qualifies (endIter : Int) (f : String) (k : Int) : Prop :=
  embeddedIter f = some k ∧ hasPthSuffix f = true ∧ k ≤ endIter

/-- Accumulator invariant for `scanAux`: either nothing has been selected yet
(and `num` is the initial `-1`), or the current `best` is a qualifying name
whose embedded iteration is exactly `num`. -/
def ScanInv (endIter : Int) (num : Int) (best : Option String) : Prop :=
  (best = none ∧ num = -1) ∨
    (∃ b k, best = some b ∧ embeddedIter b = some k ∧ hasPthSuffix b = true ∧
      k ≤ endIter ∧ num = k)

/-! ## Checkpoint save/load (`Runner.save_checkpoint` lines 308-321,
`Runner.load_checkpoint` lines 295-306)

`save_checkpoint` serialises the five component state dicts, the optimizer
state and `iter_step` into a keyed dictionary; `load_checkpoint` reads the
same keys back into the runner.  Parameter/state payloads are abstracted as
lists of rationals; the dictionary is an association list and lookups that
miss (or hit a wrongly-typed entry) fail, modelling Python's `KeyError`. -/

/-- The runner's training state: the five components' parameter states, the
optimizer state and `iter_step`. -/
structure RunnerState where
  nerf_outside : List ℚ
  sdf_network : List ℚ
  sdf_network_high : List ℚ
  deviation_network : List ℚ
  color_network : List ℚ
  optimizer : List ℚ
  iter_step : Nat
deriving DecidableEq

/-- A value stored in the checkpoint dictionary: a state dict or the integer
iteration count. -/
inductive CkptVal where
  | stateDict : List ℚ → CkptVal
  | step : Nat → CkptVal
deriving DecidableEq

/-- Dictionary lookup (`checkpoint[key]` succeeding iff the key is present). -/
def lookupKey : List (String × CkptVal) → String → Option CkptVal
  | [], _ => none
  | (k', v) :: rest, k => if k' = k then some v else lookupKey rest k

/-- The dictionary written by `save_checkpoint`, with the exact key strings of
the source. -/
def saveCheckpoint (s : RunnerState) : List (String × CkptVal) :=
  [("nerf", CkptVal.stateDict s.nerf_outside),
   ("sdf_network_fine", CkptVal.stateDict s.sdf_network),
   ("sdf_network_high_fine", CkptVal.stateDict s.sdf_network_high),
   ("variance_network_fine", CkptVal.stateDict s.deviation_network),
   ("color_network_fine", CkptVal.stateDict s.color_network),
   ("optimizer", CkptVal.stateDict s.optimizer),
   ("iter_step", CkptVal.step s.iter_step)]

/-- Read a state dict stored under `k`. -/
def getStateDict (ckpt : List (String × CkptVal)) (k : String) : Option (List ℚ) :=
  match lookupKey ckpt k with
  | some (CkptVal.stateDict p) => some p
  | _ => none

/-- Read the iteration count stored under `k`. -/
def getStep (ckpt : List (String × CkptVal)) (k : String) : Option Nat :=
  match lookupKey ckpt k with
  | some (CkptVal.step n) => some n
  | _ => none

/-- `load_checkpoint`: reads the seven entries by their source keys and
overwrites the corresponding fields of the current runner state. -/
def loadCheckpoint (s : RunnerState) (ckpt : List (String × CkptVal)) :
    Option RunnerState :=
  match getStateDict ckpt "nerf", getStateDict ckpt "sdf_network_fine",
      getStateDict ckpt "sdf_network_high_fine",
      getStateDict ckpt "variance_network_fine",
      getStateDict ckpt "color_network_fine",
      getStateDict ckpt "optimizer", getStep ckpt "iter_step" with
  | some a, some b, some c, some d, some e, some f, some g =>
    some { s with nerf_outside := a, sdf_network := b, sdf_network_high := c,
                  deviation_network := d, color_network := e, optimizer := f,
                  iter_step := g }
  | _, _, _, _, _, _, _ => none

/-! ## Learning-rate schedule (`Runner.update_learning_rate`, lines 271-280)

    if self.iter_step < self.warm_up_end:
        learning_factor = self.iter_step / self.warm_up_end
    else:
        alpha = self.learning_rate_alpha
        progress = (self.iter_step - self.warm_up_end) / (self.end_iter - self.warm_up_end)
        learning_factor = (np.cos(np.pi * progress) + 1.0) * 0.5 * (1 - alpha) + alpha
    for g in self.optimizer.param_groups:
        g['lr'] = self.learning_rate * learning_factor

The float arithmetic is modelled over the reals. -/

/-- The learning-rate factor computed by `update_learning_rate`. -/
noncomputable def learningFactor (i w e a : ℝ) : ℝ :=
  if i < w then i / w
  else (Real.cos (Real.pi * ((i - w) / (e - w))) + 1.0) * 0.5 * (1 - a) + a

/-- The loop over `optimizer.param_groups`: every group's `lr` entry is
overwritten with `base * factor`. -/
def applyLearningRate (base factor : ℝ) (groups : List ℝ) : List ℝ :=
  groups.map (fun _ => base * factor)

/-! ## Coarse-to-fine progress (`Runner.train`, lines 245-253)

    if self.iter_step > self.end_iter / 2:
        progress_data = 1.0
    else:
        progress_data = 0.5 + self.iter_step / (self.end_iter)
    self.sdf_network.progress.data.fill_(progress_data)
    self.sdf_network_high.progress.data.fill_(progress_data)
    self.color_network.progress.data.fill_(progress_data)

executed at the END of each loop body, after `self.iter_step += 1`.  The
float arithmetic is modelled over the rationals. -/

/-- The progress value computed from an iteration count. -/
def progressValue (iter e : Nat) : ℚ :=
  if (e : ℚ) / 2 < (iter : ℚ) then 1 else 1 / 2 + (iter : ℚ) / (e : ℚ)

/-! ## Progress writes in the training loop (`Runner.train`, C8)

Only `nerf_outside.progress` is written before the loop (lines 140-141, with
the constant 1.0).  The three field networks (`sdf_network`,
`sdf_network_high`, `color_network`) receive their progress value at the END
of each loop body (lines 245-253), after `iter_step` has been incremented, so
the first iteration's render observes whatever values those networks held
before `train` started. -/

/-- The progress-relevant slice of the loop state: the step counter and the
progress values currently held by the three field networks. -/
structure ProgState where
  iter : Nat
  sdfProg : ℚ
  sdfHighProg : ℚ
  colorProg : ℚ
deriving DecidableEq

/-- One loop body: the render observes the three networks' current progress
values, then `iter_step += 1`, then all three are overwritten with
`progressValue` of the incremented step. -/
def trainProgStep (e : Nat) (s : ProgState) : (ℚ × ℚ × ℚ) × ProgState :=
  ((s.sdfProg, s.sdfHighProg, s.colorProg),
   ⟨s.iter + 1, progressValue (s.iter + 1) e, progressValue (s.iter + 1) e,
    progressValue (s.iter + 1) e⟩)

/-- The trace of progress triples observed by the renders of `k` consecutive
loop bodies. -/
def trainProgRun (e : Nat) : Nat → ProgState → List (ℚ × ℚ × ℚ)
  | 0, _ => []
  | k + 1, s => (trainProgStep e s).1 :: trainProgRun e k (trainProgStep e s).2

/-! ## Image-permutation epochs (`Runner.train` lines 147-151 and 256-263)

    idx_list = image_perm[self.iter_step % len(image_perm)]
    ...
    if (iter_i+1) % len(image_perm) == 0:
        image_perm = self.get_image_perm()
    iter_i = iter_i + 1

At the top of each loop body `iter_i == self.iter_step`, since both start at
the same value and are incremented once per body.  `get_image_perm` returns
`torch.randperm(n_images)`; `fresh` below models the stream of random
permutations, indexed by the step at which they are generated. -/

/-- The permutation-relevant slice of the loop state. -/
structure PermState where
  iter : Nat
  perm : List Nat
deriving DecidableEq

/-- One loop body: select `image_perm[iter_step % len(image_perm)]`, increment
the counter, and regenerate the permutation when `(iter_i+1) % len == 0`. -/
def permStep (fresh : Nat → List Nat) (s : PermState) : Nat × PermState :=
  (s.perm.getD (s.iter % s.perm.length) 0,
   ⟨s.iter + 1,
    if (s.iter + 1) % s.perm.length = 0 then fresh (s.iter + 1) else s.perm⟩)

/-- The image indices selected by `k` consecutive loop bodies. -/
def permRun (fresh : Nat → List Nat) : Nat → PermState → List Nat
  | 0, _ => []
  | k + 1, s => (permStep fresh s).1 :: permRun fresh k (permStep fresh s).2

/-! ## Color loss term (`Runner.train`, lines 160-165 and 187-188)

    mask_sum = mask.sum() + 1e-5
    color_error = (color_fine - true_rgb) * mask
    color_fine_loss = F.l1_loss(color_error, torch.zeros_like(color_error),
                                reduction='sum') / mask_sum

Rays carry an N×3 rendered colour and ground-truth colour and an N×1 mask
which broadcasts over the three channels; `l1_loss(·, 0, reduction='sum')`
is the sum of absolute values.  Floats are modelled over the rationals. -/

/-- One ray's rendered colour (`color_fine`) and ground-truth colour
(`true_rgb`), three channels each. -/
structure RayPt where
  cf : ℚ × ℚ × ℚ
  tr : ℚ × ℚ × ℚ

/-- One ray's contribution to `|(color_fine - true_rgb) * mask|`, the mask
value broadcasting over the three channels. -/
def absErr (p : RayPt) (m : ℚ) : ℚ :=
  |(p.cf.1 - p.tr.1) * m| + |(p.cf.2.1 - p.tr.2.1) * m| + |(p.cf.2.2 - p.tr.2.2) * m|

/-- `F.l1_loss(color_error, 0, reduction='sum')`: the sum of mask-weighted
absolute colour errors over the batch. -/
def colorErrSum (pts : List RayPt) (mask : List ℚ) : ℚ :=
  ((pts.zip mask).map (fun q => absErr q.1 q.2)).sum

/-- `mask_sum = mask.sum() + 1e-5`. -/
def maskSumOf (mask : List ℚ) : ℚ :=
  mask.sum + 1 / 100000

/-- The color term as a function of the batch, the mask and the normalizer
`mask_sum` (which the source computes separately at line 165). -/
def colorLossWith (pts : List RayPt) (mask : List ℚ) (maskSum : ℚ) : ℚ :=
  colorErrSum pts mask / maskSum

/-- `color_fine_loss` as computed at line 188. -/
def colorFineLoss (pts : List RayPt) (mask : List ℚ) : ℚ :=
  colorLossWith pts mask (maskSumOf mask)

/-! ## Optional render fields in image validation (`Runner.validate_image`,
lines 360-377 and 426-446)

    def feasible(key):
        return (key in render_out) and (render_out[key] is not None)

Each optional output is appended to its accumulator list only when feasible,
and each artifact-writing block is guarded by `len(out_...) > 0` — except
that `img_fine` is only assigned when `len(out_rgb_fine) > 0`, yet line 426
evaluates `img_fine.shape[-1]` unconditionally, so an absent `color_fine`
leaves `img_fine = None` and raises `AttributeError`. -/

/-- One chunk's render output; `none` models a key that is absent or holds
`None`. -/
structure RenderOut where
  color_fine : Option ℚ
  gradients : Option ℚ
  weights : Option ℚ
  inside_sphere : Option ℚ
  depth_sdf : Option ℚ
  ncc_cost : Option ℚ
deriving DecidableEq

/-- The `feasible` predicate of the source. -/
def feasible (o : Option ℚ) : Bool :=
  o.isSome

/-- Which artifact kinds `validate_image` writes. -/
structure ValArtifacts where
  rgb : Bool
  normals : Bool
  depths : Bool
  nccs : Bool
deriving DecidableEq

/-- The accumulation-and-write phase of `validate_image` over the per-chunk
render outputs: optional fields are accumulated only when feasible; the
write loop ranges over `img_fine.shape[-1]`, which raises when no chunk
supplied `color_fine` (`img_fine` is then still `None`). -/
def validateImageRun (outs : List RenderOut) : Except String ValArtifacts :=
  let rgbs := outs.filterMap (fun o => o.color_fine)
  let normals := outs.filterMap (fun o =>
    if feasible o.gradients = true ∧ feasible o.weights = true then
      some (o.gradients.getD 0) else none)
  let depths := outs.filterMap (fun o => o.depth_sdf)
  let nccs := outs.filterMap (fun o => o.ncc_cost)
  if rgbs.isEmpty then
    Except.error "AttributeError: NoneType object has no attribute shape"
  else
    Except.ok ⟨!rgbs.isEmpty, !normals.isEmpty, !depths.isEmpty, !nccs.isEmpty⟩

theorem pyIntChars_nonneg {l : List Char} {k : Int} (h : pyIntChars l = some k) :
    0 ≤ k := by
  unfold pyIntChars at h
  split at h
  · cases h
    exact Int.ofNat_nonneg _
  · cases h

theorem embeddedIter_nonneg {f : String} {k : Int} (h : embeddedIter f = some k) :
    0 ≤ k :=
  pyIntChars_nonneg h

theorem scanAux_cons_some (endIter : Int) (f : String) (rest : List String)
    (num : Int) (best : Option String) (k : Int) (hk : embeddedIter f = some k) :
    scanAux endIter (f :: rest) num best =
      if hasPthSuffix f = true ∧ k ≤ endIter ∧ num < k then
        scanAux endIter rest k (some f)
      else scanAux endIter rest num best := by
  conv_lhs => rw [scanAux]
  rw [hk]

theorem scanAux_cons_none (endIter : Int) (f : String) (rest : List String)
    (num : Int) (best : Option String) (hk : embeddedIter f = none) :
    scanAux endIter (f :: rest) num best = Except.error f := by
  unfold scanAux
  rw [hk]

/-- Full characterisation of the scan loop: if every listed name parses, the
scan succeeds; the result is `none` only when no file qualifies, and otherwise
it is a qualifying name whose embedded iteration dominates every qualifying
iteration in the remaining listing (and is at least the accumulator `num`). -/
theorem scanAux_spec (endIter : Int) :
    ∀ (files : List String) (num : Int) (best : Option String),
      (∀ f ∈ files, (embeddedIter f).isSome = true) →
      ScanInv endIter num best →
      ∃ r, scanAux endIter files num best = Except.ok r ∧
        ((r = none ∧ best = none ∧ ∀ f ∈ files, ∀ k, ¬ Qualifies endIter f k) ∨
         (∃ b m, r = some b ∧ embeddedIter b = some m ∧ hasPthSuffix b = true ∧
            m ≤ endIter ∧ num ≤ m ∧ (b ∈ files ∨ best = some b) ∧
            ∀ f ∈ files, ∀ k, Qualifies endIter f k → k ≤ m)) := by
  intro files
  induction files with
  | nil =>
    intro num best _ hinv
    refine ⟨best, rfl, ?_⟩
    rcases hinv with ⟨hb, hn⟩ | ⟨b, k, hb, hit, hsuf, hle, hnum⟩
    · exact Or.inl ⟨hb, hb, by intro f hf; cases hf⟩
    · exact Or.inr ⟨b, k, hb, hit, hsuf, hle, le_of_eq hnum,
        Or.inr hb, by intro f hf; cases hf⟩
  | cons f0 rest ih =>
    intro num best hwf hinv
    have hf0 : (embeddedIter f0).isSome = true := hwf f0 (List.mem_cons_self _ _)
    obtain ⟨k0, hk0⟩ : ∃ k0, embeddedIter f0 = some k0 := by
      cases h : embeddedIter f0 with
      | none => rw [h] at hf0; cases hf0
      | some v => exact ⟨v, rfl⟩
    have hwr : ∀ f ∈ rest, (embeddedIter f).isSome = true :=
      fun f hf => hwf f (List.mem_cons_of_mem _ hf)
    have hk0nn : (0 : Int) ≤ k0 := embeddedIter_nonneg hk0
    rw [scanAux_cons_some endIter f0 rest num best k0 hk0]
    by_cases hcond : hasPthSuffix f0 = true ∧ k0 ≤ endIter ∧ num < k0
    · rw [if_pos hcond]
      obtain ⟨hsuf0, hle0, hlt0⟩ := hcond
      have hinv' : ScanInv endIter k0 (some f0) :=
        Or.inr ⟨f0, k0, rfl, hk0, hsuf0, hle0, rfl⟩
      obtain ⟨r, hr, hpost⟩ := ih k0 (some f0) hwr hinv'
      refine ⟨r, hr, Or.inr ?_⟩
      rcases hpost with ⟨_, hbn, _⟩ | ⟨b, m, hrb, hbit, hbsuf, hbm, hk0m, hbmem, hmax⟩
      · cases hbn
      · refine ⟨b, m, hrb, hbit, hbsuf, hbm, le_of_lt (lt_of_lt_of_le hlt0 hk0m), ?_, ?_⟩
        · rcases hbmem with hb | hb
          · exact Or.inl (List.mem_cons_of_mem _ hb)
          · exact Or.inl (by rw [Option.some_inj] at hb; rw [hb]; exact List.mem_cons_self _ _)
        · intro f hf k hq
          rcases List.mem_cons.mp hf with rfl | hf
          · obtain ⟨hq1, _, _⟩ := hq
            rw [hk0, Option.some_inj] at hq1
            exact hq1 ▸ hk0m
          · exact hmax f hf k hq
    · rw [if_neg hcond]
      obtain ⟨r, hr, hpost⟩ := ih num best hwr hinv
      refine ⟨r, hr, ?_⟩
      rcases hpost with ⟨hrn, hbn, hnone⟩ | ⟨b, m, hrb, hbit, hbsuf, hbm, hnm, hbmem, hmax⟩
      · refine Or.inl ⟨hrn, hbn, ?_⟩
        intro f hf k hq
        rcases List.mem_cons.mp hf with rfl | hf
        · obtain ⟨hq1, hq2, hq3⟩ := hq
          rw [hk0, Option.some_inj] at hq1
          subst hq1
          rcases hinv with ⟨_, hnum⟩ | ⟨b', k', hb', _⟩
          · exact hcond ⟨hq2, hq3, by rw [hnum]; exact lt_of_lt_of_le (by norm_num) hk0nn⟩
          · rw [hbn] at hb'
            exact Option.noConfusion hb'
        · exact hnone f hf k hq
      · refine Or.inr ⟨b, m, hrb, hbit, hbsuf, hbm, hnm, ?_, ?_⟩
        · rcases hbmem with hb | hb
          · exact Or.inl (List.mem_cons_of_mem _ hb)
          · exact Or.inr hb
        · intro f hf k hq
          rcases List.mem_cons.mp hf with rfl | hf
          · obtain ⟨hq1, hq2, hq3⟩ := hq
            rw [hk0, Option.some_inj] at hq1
            have h3' : k0 ≤ endIter := by rw [hq1]; exact hq3
            have hnk : ¬ num < k0 := fun hlt => hcond ⟨hq2, h3', hlt⟩
            rw [← hq1]
            exact le_trans (not_lt.mp hnk) hnm
          · exact hmax f hf k hq

/-- C1: when resume is requested without an explicit checkpoint name, the
constructor scans the checkpoints directory and selects the artifact whose
embedded iteration number is the maximum of those not exceeding `end_iter`,
then loads it; in particular, with artifacts at iterations 1000, 5000 and
9000 and `end_iter = 8000`, the artifact at iteration 5000 is selected. -/
theorem claim_C1 (files : List String) (e : Int)
    (hwf : ∀ f ∈ files, (embeddedIter f).isSome = true ∧ hasPthSuffix f = true)
    (hex : ∃ f ∈ files, ∃ k, embeddedIter f = some k ∧ k ≤ e) :
    (∃ b m, scanCkpts e files = Except.ok (some b) ∧ b ∈ files ∧
       embeddedIter b = some m ∧ m ≤ e ∧
       (∀ f ∈ files, ∀ k, embeddedIter f = some k → k ≤ e → k ≤ m) ∧
       runnerInitLoad true none (some files) e = Except.ok (some b)) ∧
    scanCkpts 8000 ["ckpt_001000.pth", "ckpt_005000.pth", "ckpt_009000.pth"] =
      Except.ok (some "ckpt_005000.pth") := by
  constructor
  · obtain ⟨r, hr, hpost⟩ := scanAux_spec e files (-1) none
      (fun f hf => (hwf f hf).1) (Or.inl ⟨rfl, rfl⟩)
    rcases hpost with ⟨_, _, hnone⟩ | ⟨b, m, hrb, hbit, _, hbm, _, hbmem, hmax⟩
    · obtain ⟨f, hf, k, hk, hke⟩ := hex
      exact absurd ⟨hk, (hwf f hf).2, hke⟩ (hnone f hf k)
    · have hb : b ∈ files := by
        rcases hbmem with h | h
        · exact h
        · exact Option.noConfusion h
      have hscan : scanCkpts e files = Except.ok (some b) := by
        rw [show scanCkpts e files = scanAux e files (-1) none from rfl, hr, hrb]
      refine ⟨b, m, hscan, hb, hbit, hbm, ?_, ?_⟩
      · intro f hf k hk hke
        exact hmax f hf k ⟨hk, (hwf f hf).2, hke⟩
      · simp [runnerInitLoad, hscan]
  · decide

theorem claim_C1_witness :
    scanCkpts 8000 ["ckpt_001000.pth", "ckpt_005000.pth", "ckpt_009000.pth"] =
      Except.ok (some "ckpt_005000.pth") :=
  (claim_C1 ["ckpt_001000.pth", "ckpt_005000.pth", "ckpt_009000.pth"] 8000
    (by intro f hf; fin_cases hf <;> exact ⟨by decide, by decide⟩)
    ⟨"ckpt_001000.pth", by decide, 1000, by decide, by decide⟩).2

/-- C6 counterexample: the scan computes `int(model_name[5:-4])` before the
`pth` suffix test, so a directory listing containing the well-formed
`ckpt_001000.pth` alongside `readme.txt` (whose slice `"e"` is not an integer
literal) crashes with `ValueError` instead of succeeding and selecting the
well-formed artifact, contrary to the claim. -/
theorem claim_C6_counterexample :
    scanCkpts 8000 ["ckpt_001000.pth", "readme.txt"] = Except.error "readme.txt" ∧
    scanCkpts 8000 ["ckpt_001000.pth", "readme.txt"] ≠
      Except.ok (some "ckpt_001000.pth") := by
  exact ⟨by decide, by decide⟩

/-- C6 (amended): a file whose name slice parses as an iteration count but
which lacks the `pth` suffix is excluded from selection without crashing the
scan: for every listing in which every name's slice `[5:-4]` parses as an
integer, the scan succeeds and any selected artifact is a `pth`-suffixed
member of the listing with embedded iteration at most `end_iter`.  (A name
whose slice does not parse crashes the scan, per the counterexample.)
For example, `ckpt_000002.txt` is excluded and `ckpt_000001.pth` selected. -/
theorem claim_C6 (files : List String) (e : Int)
    (hwf : ∀ f ∈ files, (embeddedIter f).isSome = true) :
    (∃ r, scanCkpts e files = Except.ok r ∧
       ∀ b, r = some b → b ∈ files ∧ hasPthSuffix b = true ∧
         ∃ m, embeddedIter b = some m ∧ m ≤ e) ∧
    scanCkpts 10 ["ckpt_000001.pth", "ckpt_000002.txt"] =
      Except.ok (some "ckpt_000001.pth") := by
  constructor
  · obtain ⟨r, hr, hpost⟩ := scanAux_spec e files (-1) none hwf (Or.inl ⟨rfl, rfl⟩)
    refine ⟨r, hr, ?_⟩
    intro b hrb
    rcases hpost with ⟨hrn, _, _⟩ | ⟨b', m, hrb', hbit, hbsuf, hbm, _, hbmem, _⟩
    · rw [hrn] at hrb
      exact Option.noConfusion hrb
    · rw [hrb'] at hrb
      rw [Option.some_inj] at hrb
      subst hrb
      have hb : b' ∈ files := by
        rcases hbmem with h | h
        · exact h
        · exact Option.noConfusion h
      exact ⟨hb, hbsuf, m, hbit, hbm⟩
  · decide

theorem claim_C6_witness :
    scanCkpts 10 ["ckpt_000001.pth", "ckpt_000002.txt"] =
      Except.ok (some "ckpt_000001.pth") :=
  (claim_C6 ["ckpt_000001.pth", "ckpt_000002.txt"] 10
    (by intro f hf; fin_cases hf <;> decide)).2

/-- C10: the `--is_continue` flag parses to `True` for every invocation
(`store_true` with `default=True`), so with no explicit checkpoint name the
constructor always attempts discovery; a run whose experiment directory has
no `checkpoints` subdirectory fails (`FileNotFoundError`), and a run whose
checkpoints directory yields no loadable artifact fails (`TypeError` from
`load_checkpoint([])`) instead of starting training from scratch. -/
theorem claim_C10 (b : Bool) (e : Int) (files : List String)
    (hscan : scanCkpts e files = Except.ok none) :
    parsedIsContinue b = true ∧
    runnerInitLoad (parsedIsContinue b) none none e =
      Except.error "FileNotFoundError: no checkpoints directory" ∧
    runnerInitLoad (parsedIsContinue b) none (some files) e =
      Except.error "TypeError: load_checkpoint received the empty list" ∧
    scanCkpts e ([] : List String) = Except.ok none := by
  have hpc : parsedIsContinue b = true := by cases b <;> rfl
  refine ⟨hpc, ?_, ?_, rfl⟩
  · rw [hpc]
    rfl
  · rw [hpc]
    simp [runnerInitLoad, hscan]

theorem claim_C10_witness :
    runnerInitLoad (parsedIsContinue false) none (some []) 0 =
      Except.error "TypeError: load_checkpoint received the empty list" :=
  (claim_C10 false 0 [] rfl).2.2.1

/-- C2: saving at `iter_step == K` and loading the written artifact (into any
runner state `t`) restores `iter_step == K` and every component's parameter
state and the optimizer state to their saved values — the checkpoint
round-trip is the identity on the training state.  The final conjunct is a
concrete instance of the round-trip. -/
theorem claim_C2 (K : Nat) (s t : RunnerState) (hK : s.iter_step = K) :
    (∃ s', loadCheckpoint t (saveCheckpoint s) = some s' ∧
       s'.iter_step = K ∧
       s'.nerf_outside = s.nerf_outside ∧
       s'.sdf_network = s.sdf_network ∧
       s'.sdf_network_high = s.sdf_network_high ∧
       s'.deviation_network = s.deviation_network ∧
       s'.color_network = s.color_network ∧
       s'.optimizer = s.optimizer) ∧
    loadCheckpoint ⟨[], [], [], [], [], [], 0⟩
        (saveCheckpoint ⟨[1], [2], [3], [4], [5], [6], 5⟩) =
      some ⟨[1], [2], [3], [4], [5], [6], 5⟩ := by
  constructor
  · refine ⟨⟨s.nerf_outside, s.sdf_network, s.sdf_network_high, s.deviation_network,
        s.color_network, s.optimizer, s.iter_step⟩, ?_, hK, rfl, rfl, rfl, rfl, rfl, rfl⟩
    rfl
  · decide

theorem claim_C2_witness :
    loadCheckpoint ⟨[], [], [], [], [], [], 0⟩
        (saveCheckpoint ⟨[1], [2], [3], [4], [5], [6], 5⟩) =
      some ⟨[1], [2], [3], [4], [5], [6], 5⟩ :=
  (claim_C2 5 ⟨[1], [2], [3], [4], [5], [6], 5⟩ ⟨[], [], [], [], [], [], 0⟩ rfl).2

/-- C3: for `0 ≤ i < w` the factor is the linear ramp `i / w`; for `i ≥ w` it
is the cosine-decay formula; for `w ≤ i ≤ e` (with `w < e`, `0 ≤ a ≤ 1`) it
lies in `[a, 1]`; with `a < 1` it equals `a` exactly when `i = e`; and the
effective rate `base * factor` is written into every optimizer group. -/
theorem claim_C3 (i w e a base : ℝ) (groups : List ℝ) :
    (0 ≤ i → i < w → learningFactor i w e a = i / w) ∧
    (w ≤ i → learningFactor i w e a =
      (Real.cos (Real.pi * ((i - w) / (e - w))) + 1.0) * 0.5 * (1 - a) + a) ∧
    (w ≤ i → i ≤ e → w < e → 0 ≤ a → a ≤ 1 →
      a ≤ learningFactor i w e a ∧ learningFactor i w e a ≤ 1) ∧
    (w ≤ i → i ≤ e → w < e → 0 ≤ a → a < 1 →
      (learningFactor i w e a = a ↔ i = e)) ∧
    (∀ g ∈ applyLearningRate base (learningFactor i w e a) groups,
      g = base * learningFactor i w e a) := by
  have hcosdef : ∀ hwi : w ≤ i, learningFactor i w e a =
      (Real.cos (Real.pi * ((i - w) / (e - w))) + 1.0) * 0.5 * (1 - a) + a := by
    intro hwi
    rw [learningFactor, if_neg (not_lt.mpr hwi)]
  refine ⟨?_, hcosdef, ?_, ?_, ?_⟩
  · intro _ hlt
    rw [learningFactor, if_pos hlt]
  · intro hwi hie hwe ha0 ha1
    rw [hcosdef hwi]
    have hewpos : (0 : ℝ) < e - w := by linarith
    have hp0 : (0 : ℝ) ≤ (i - w) / (e - w) := div_nonneg (by linarith) (le_of_lt hewpos)
    have hp1 : (i - w) / (e - w) ≤ 1 := by
      rw [div_le_one hewpos]
      linarith
    have hc1 : Real.cos (Real.pi * ((i - w) / (e - w))) ≤ 1 := Real.cos_le_one _
    have hc2 : -1 ≤ Real.cos (Real.pi * ((i - w) / (e - w))) := Real.neg_one_le_cos _
    constructor
    · nlinarith
    · nlinarith
  · intro hwi hie hwe ha0 ha1
    rw [hcosdef hwi]
    have hewpos : (0 : ℝ) < e - w := by linarith
    constructor
    · intro heq
      by_contra hne
      have hlt : i < e := lt_of_le_of_ne hie hne
      have hp0 : (0 : ℝ) ≤ (i - w) / (e - w) := div_nonneg (by linarith) (le_of_lt hewpos)
      have hp1 : (i - w) / (e - w) < 1 := by
        rw [div_lt_one hewpos]
        linarith
      have hx0 : (0 : ℝ) ≤ Real.pi * ((i - w) / (e - w)) :=
        mul_nonneg (le_of_lt Real.pi_pos) hp0
      have hxpi : Real.pi * ((i - w) / (e - w)) < Real.pi := by
        nth_rewrite 2 [show Real.pi = Real.pi * 1 by ring]
        exact mul_lt_mul_of_pos_left hp1 Real.pi_pos
      have hcm : Real.cos Real.pi < Real.cos (Real.pi * ((i - w) / (e - w))) :=
        Real.cos_lt_cos_of_nonneg_of_le_pi hx0 le_rfl hxpi
      rw [Real.cos_pi] at hcm
      nlinarith
    · intro heq
      subst heq
      rw [div_self (ne_of_gt hewpos), mul_one, Real.cos_pi]
      ring
  · intro g hg
    rw [applyLearningRate] at hg
    obtain ⟨x, _, hx⟩ := List.mem_map.mp hg
    exact hx.symm

theorem claim_C3_witness :
    learningFactor 1 2 4 (1 / 2) = 1 / 2 ∧
    learningFactor 4 2 4 (1 / 2) = 1 / 2 ∧
    (1 / 2 : ℝ) ≤ learningFactor 3 2 4 (1 / 2) ∧
    learningFactor 3 2 4 (1 / 2) ≤ 1 := by
  have h1 := (claim_C3 1 2 4 (1 / 2) 1 []).1 (by norm_num) (by norm_num)
  have h2 := ((claim_C3 4 2 4 (1 / 2) 1 []).2.2.2.1 (by norm_num) (by norm_num)
    (by norm_num) (by norm_num) (by norm_num)).mpr rfl
  have h3 := (claim_C3 3 2 4 (1 / 2) 1 []).2.2.1 (by norm_num) (by norm_num)
    (by norm_num) (by norm_num) (by norm_num)
  exact ⟨h1, h2, h3.1, h3.2⟩

/-- C4: the progress value is exactly 1 past the midpoint, equals
`0.5 + iter_step / end_iter` up to the midpoint, and is strictly increasing
there. -/
theorem claim_C4 (s s1 s2 e : Nat) :
    ((e : ℚ) / 2 < (s : ℚ) → progressValue s e = 1) ∧
    ((s : ℚ) ≤ (e : ℚ) / 2 → progressValue s e = 1 / 2 + (s : ℚ) / (e : ℚ)) ∧
    (0 < e → s1 < s2 → (s2 : ℚ) ≤ (e : ℚ) / 2 →
      progressValue s1 e < progressValue s2 e) := by
  refine ⟨?_, ?_, ?_⟩
  · intro h
    rw [progressValue, if_pos h]
  · intro h
    rw [progressValue, if_neg (not_lt.mpr h)]
  · intro he h12 h2
    have hc : (s1 : ℚ) < (s2 : ℚ) := by exact_mod_cast h12
    have h1 : (s1 : ℚ) ≤ (e : ℚ) / 2 := le_trans (le_of_lt hc) h2
    have hep : (0 : ℚ) < (e : ℚ) := by exact_mod_cast he
    rw [progressValue, if_neg (not_lt.mpr h1), progressValue, if_neg (not_lt.mpr h2)]
    have : (s1 : ℚ) / (e : ℚ) < (s2 : ℚ) / (e : ℚ) := by
      apply div_lt_div_of_pos_right hc hep
    linarith

theorem claim_C4_witness :
    progressValue 3 4 = 1 ∧ progressValue 0 4 < progressValue 1 4 :=
  ⟨(claim_C4 3 0 1 4).1 (by norm_num),
   (claim_C4 3 0 1 4).2.2 (by norm_num) (by norm_num) (by norm_num)⟩

/-- C8 counterexample: in the first loop body after construction (or resume),
no progress value derived from the current `iter_step` is written into the
three networks before the render: with `end_iter = 4`, starting at
`iter_step = 0` with the networks holding a pre-loop value 0, the first
render observes `(0, 0, 0)` and not the value `1/2 = 0.5 + 0/4` derived from
the current step — the write happens only after the render. -/
theorem claim_C8_counterexample :
    (trainProgRun 4 1 ⟨0, 0, 0, 0⟩).getD 0 (9, 9, 9) = (0, 0, 0) ∧
    progressValue 0 4 = 1 / 2 ∧
    (trainProgRun 4 1 ⟨0, 0, 0, 0⟩).getD 0 (9, 9, 9) ≠
      (progressValue 0 4, progressValue 0 4, progressValue 0 4) := by
  have ha : (trainProgRun 4 1 ⟨0, 0, 0, 0⟩).getD 0 (9, 9, 9) = (0, 0, 0) := rfl
  have hb : progressValue 0 4 = 1 / 2 := by norm_num [progressValue]
  refine ⟨ha, hb, ?_⟩
  rw [ha, hb]
  norm_num [Prod.ext_iff]

theorem trainProgRun_coherent (e : Nat) :
    ∀ (k i : Nat) (s : ProgState), i < k →
      s.sdfProg = progressValue s.iter e →
      s.sdfHighProg = progressValue s.iter e →
      s.colorProg = progressValue s.iter e →
      (trainProgRun e k s).getD i (0, 0, 0) =
        (progressValue (s.iter + i) e, progressValue (s.iter + i) e,
         progressValue (s.iter + i) e) := by
  intro k
  induction k with
  | zero => intro i s hik; cases hik
  | succ k ih =>
    intro i s hik h1 h2 h3
    cases i with
    | zero =>
      show (s.sdfProg, s.sdfHighProg, s.colorProg) = _
      rw [h1, h2, h3, Nat.add_zero]
    | succ j =>
      show ((trainProgStep e s).1 :: trainProgRun e k (trainProgStep e s).2).getD (j + 1) _ = _
      rw [List.getD_cons_succ]
      have := ih j (trainProgStep e s).2 (Nat.lt_of_succ_lt_succ hik) rfl rfl rfl
      rw [this]
      show (progressValue (s.iter + 1 + j) e, progressValue (s.iter + 1 + j) e,
        progressValue (s.iter + 1 + j) e) = _
      rw [show s.iter + 1 + j = s.iter + (j + 1) by omega]

/-- C8 (amended): from the second loop body of a `train()` call onward, the
render observes the same progress value — `progressValue` of the current
`iter_step` — in all three networks (the value written at the end of the
previous body from the already-incremented step); only the first body's
render observes the pre-loop values, which no progress write precedes. -/
theorem claim_C8 (e k i : Nat) (s : ProgState) (h1 : 1 ≤ i) (h2 : i < k) :
    (trainProgRun e k s).getD i (0, 0, 0) =
      (progressValue (s.iter + i) e, progressValue (s.iter + i) e,
       progressValue (s.iter + i) e) := by
  obtain ⟨j, rfl⟩ : ∃ j, i = j + 1 := ⟨i - 1, by omega⟩
  cases k with
  | zero => cases h2
  | succ k =>
    show ((trainProgStep e s).1 :: trainProgRun e k (trainProgStep e s).2).getD (j + 1) _ = _
    rw [List.getD_cons_succ]
    rw [trainProgRun_coherent e k j (trainProgStep e s).2
      (Nat.lt_of_succ_lt_succ h2) rfl rfl rfl]
    show (progressValue (s.iter + 1 + j) e, progressValue (s.iter + 1 + j) e,
      progressValue (s.iter + 1 + j) e) = _
    rw [show s.iter + 1 + j = s.iter + (j + 1) by omega]

theorem claim_C8_witness :
    (trainProgRun 4 3 ⟨0, 7, 7, 7⟩).getD 1 (0, 0, 0) = (3 / 4, 3 / 4, 3 / 4) := by
  have h := claim_C8 4 3 1 ⟨0, 7, 7, 7⟩ (by norm_num) (by norm_num)
  rw [h]
  norm_num [progressValue]

theorem succ_mod_eq_zero_iff (m n : Nat) (hn : 0 < n) :
    (m + 1) % n = 0 ↔ m % n = n - 1 := by
  rcases Nat.lt_or_ge 1 n with h1 | h1
  · have h1n : 1 % n = 1 := Nat.mod_eq_of_lt h1
    have key : (m + 1) % n = (m % n + 1) % n := by rw [Nat.add_mod, h1n]
    have hr : m % n < n := Nat.mod_lt _ hn
    constructor
    · intro h
      rw [key] at h
      rcases Nat.lt_or_ge (m % n + 1) n with hlt | hge
      · rw [Nat.mod_eq_of_lt hlt] at h
        omega
      · omega
    · intro h
      rw [key, h, show n - 1 + 1 = n from by omega, Nat.mod_self]
  · have : n = 1 := by omega
    subst this
    simp [Nat.mod_one]

/-- Running the loop from a state whose counter is `k` slots before the epoch
boundary yields exactly the last `k` entries of the current permutation: the
permutation is not regenerated before its last slot is consumed. -/
theorem permRun_window (fresh : Nat → List Nat) (n : Nat) (hn : 0 < n) :
    ∀ (k : Nat) (s : PermState), k ≤ n → s.perm.length = n →
      s.iter % n = n - k → permRun fresh k s = s.perm.drop (n - k) := by
  intro k
  induction k with
  | zero =>
    intro s _ hlen _
    rw [Nat.sub_zero, permRun, ← hlen, List.drop_length]
  | succ k ih =>
    intro s hkn hlen hmod
    have hj : n - (k + 1) < s.perm.length := by omega
    have hidx : s.iter % s.perm.length = n - (k + 1) := by rw [hlen, hmod]
    have hsel : (permStep fresh s).1 = s.perm.get ⟨n - (k + 1), hj⟩ := by
      show s.perm.getD (s.iter % s.perm.length) 0 = _
      rw [hidx, List.getD_eq_getElem s.perm 0 hj]
      exact (List.get_eq_getElem s.perm ⟨n - (k + 1), hj⟩).symm
    rw [permRun, hsel]
    rcases Nat.eq_zero_or_pos k with rfl | hkpos
    · rw [permRun]
      rw [List.drop_eq_getElem_cons hj]
      rw [show n - (0 + 1) + 1 = n from by omega]
      rw [List.drop_eq_nil_of_le (le_of_eq hlen)]
      rw [List.get_eq_getElem]
    · have h2n : 1 < n := by omega
      have h1n : 1 % n = 1 := Nat.mod_eq_of_lt h2n
      have hmod' : (s.iter + 1) % n = n - k := by
        rw [Nat.add_mod, h1n, hmod, show n - (k + 1) + 1 = n - k from by omega]
        exact Nat.mod_eq_of_lt (by omega)
      have hne : (s.iter + 1) % s.perm.length ≠ 0 := by
        rw [hlen, hmod']
        omega
      have hperm' : (permStep fresh s).2.perm = s.perm := by
        show (if (s.iter + 1) % s.perm.length = 0 then fresh (s.iter + 1) else s.perm) = _
        rw [if_neg hne]
      have hstep : (permStep fresh s).2.iter % n = n - k := hmod'
      have := ih (permStep fresh s).2 (by omega) (by rw [hperm', hlen]) hstep
      rw [this, hperm']
      rw [List.drop_eq_getElem_cons hj]
      rw [show n - (k + 1) + 1 = n - k from by omega]
      rw [List.get_eq_getElem]

/-- C5: each iteration selects `image_perm[iter_step mod n]`; the permutation
is regenerated exactly when the last slot of the current permutation has been
consumed; and across a window of `n` consecutive selections starting at an
epoch boundary (`iter_step ≡ 0 mod n`) with a current permutation of
`[0, n)`, every image index is selected exactly once. -/
theorem claim_C5 (fresh : Nat → List Nat) (s : PermState) (n : Nat)
    (hn : 0 < n) (hlen : s.perm.length = n) (hperm : s.perm.Perm (List.range n))
    (hstart : s.iter % n = 0) :
    (permStep fresh s).1 = s.perm.getD (s.iter % s.perm.length) 0 ∧
    (permStep fresh s).2.perm =
      (if s.iter % n = n - 1 then fresh (s.iter + 1) else s.perm) ∧
    (permRun fresh n s).Perm (List.range n) := by
  refine ⟨rfl, ?_, ?_⟩
  · show (if (s.iter + 1) % s.perm.length = 0 then fresh (s.iter + 1) else s.perm) = _
    rw [hlen]
    by_cases h : s.iter % n = n - 1
    · rw [if_pos ((succ_mod_eq_zero_iff s.iter n hn).mpr h), if_pos h]
    · rw [if_neg (fun hz => h ((succ_mod_eq_zero_iff s.iter n hn).mp hz)), if_neg h]
  · have := permRun_window fresh n hn n s le_rfl hlen (by rw [hstart]; omega)
    rw [this, Nat.sub_self, List.drop_zero]
    exact hperm

theorem claim_C5_witness :
    (permRun (fun _ => [1, 0]) 2 ⟨0, [1, 0]⟩).Perm (List.range 2) :=
  (claim_C5 (fun _ => [1, 0]) ⟨0, [1, 0]⟩ 2 (by decide) rfl (by decide) rfl).2.2

theorem colorErrSum_double (pts : List RayPt) (mask : List ℚ) :
    colorErrSum pts (mask.map (fun m => 2 * m)) = 2 * colorErrSum pts mask := by
  have habs : ∀ x m : ℚ, |x * (2 * m)| = 2 * |x * m| := by
    intro x m
    rw [show x * (2 * m) = 2 * (x * m) from by ring, abs_mul, abs_two]
  induction pts generalizing mask with
  | nil => simp [colorErrSum]
  | cons p ps ih =>
    cases mask with
    | nil => simp [colorErrSum]
    | cons m ms =>
      rw [colorErrSum, List.map_cons, List.zip_cons_cons, List.map_cons, List.sum_cons]
      rw [colorErrSum, List.zip_cons_cons, List.map_cons, List.sum_cons]
      have hstep : absErr p (2 * m) = 2 * absErr p m := by
        rw [absErr, absErr, habs, habs, habs]
        ring
      have hrest := ih ms
      rw [colorErrSum] at hrest
      rw [colorErrSum] at hrest
      show absErr p (2 * m) + _ = _
      rw [hstep, hrest]
      ring

/-- C7: the color loss term equals the sum of mask-weighted absolute colour
error divided by `mask_sum = mask.sum() + 1e-5`; and for an all-ones mask,
doubling the mask values together with its corresponding `mask_sum` leaves
the color term unchanged — the normalization cancels exactly. -/
theorem claim_C7 (pts : List RayPt) (mask : List ℚ) (n : Nat) :
    colorFineLoss pts mask = colorErrSum pts mask / (mask.sum + 1 / 100000) ∧
    colorLossWith pts ((List.replicate n (1 : ℚ)).map (fun m => 2 * m))
        (2 * maskSumOf (List.replicate n (1 : ℚ))) =
      colorFineLoss pts (List.replicate n (1 : ℚ)) := by
  constructor
  · rfl
  · rw [colorLossWith, colorErrSum_double, colorFineLoss, colorLossWith]
    exact mul_div_mul_left _ _ two_ne_zero

/-- C9 counterexample: a render output lacking the optional field
`color_fine` (all other fields present) makes `validate_image` fail at the
write loop (`img_fine.shape` on `None`) instead of completing without
error, contrary to the claim. -/
theorem claim_C9_counterexample :
    validateImageRun [⟨none, some 1, some 1, some 1, some 1, some 1⟩] =
      Except.error "AttributeError: NoneType object has no attribute shape" ∧
    validateImageRun [⟨none, some 1, some 1, some 1, some 1, some 1⟩] ≠
      Except.ok ⟨false, true, true, true⟩ := by
  exact ⟨rfl, fun h => Except.noConfusion h⟩

theorem filterMap_nonempty_iff (outs : List RenderOut) (f : RenderOut → Option ℚ) :
    (!(outs.filterMap f).isEmpty) = true ↔ ∃ o ∈ outs, (f o).isSome = true := by
  constructor
  · intro hf
    rcases hx : outs.filterMap f with _ | ⟨b, rest⟩
    · rw [hx] at hf
      simp at hf
    · have hb : b ∈ outs.filterMap f := by
        rw [hx]
        exact List.mem_cons_self _ _
      obtain ⟨o, ho, hfo⟩ := List.mem_filterMap.mp hb
      exact ⟨o, ho, by rw [hfo]; rfl⟩
  · rintro ⟨o, ho, hfo⟩
    obtain ⟨v, hv⟩ := Option.isSome_iff_exists.mp hfo
    have hmem : v ∈ outs.filterMap f := List.mem_filterMap.mpr ⟨o, ho, hv⟩
    rcases hx : outs.filterMap f with _ | _
    · rw [hx] at hmem
      cases hmem
    · rfl

/-- C9 (amended): absence of `gradients`, `weights`, `depth_sdf` or
`ncc_cost` is tolerated — the corresponding artifact is skipped and
`validate_image` completes — provided at least one chunk supplies
`color_fine`; when every chunk lacks `color_fine`, the function fails (see
the counterexample).  The final conjunct is a concrete instance with
`depth_sdf` absent. -/
theorem claim_C9 (outs : List RenderOut)
    (h : ∃ o ∈ outs, o.color_fine.isSome = true) :
    (∃ arts, validateImageRun outs = Except.ok arts ∧
       arts.rgb = true ∧
       (arts.normals = true ↔
         ∃ o ∈ outs, o.gradients.isSome = true ∧ o.weights.isSome = true) ∧
       (arts.depths = true ↔ ∃ o ∈ outs, o.depth_sdf.isSome = true) ∧
       (arts.nccs = true ↔ ∃ o ∈ outs, o.ncc_cost.isSome = true)) ∧
    validateImageRun [⟨some 1, some 1, some 1, some 1, none, some 1⟩] =
      Except.ok ⟨true, true, false, true⟩ := by
  constructor
  · have hrgb : (!(outs.filterMap (fun o => o.color_fine)).isEmpty) = true :=
      (filterMap_nonempty_iff outs _).mpr h
    have hcond : ¬((outs.filterMap (fun o => o.color_fine)).isEmpty = true) := by
      intro hh
      rw [hh] at hrgb
      cases hrgb
    refine ⟨⟨!(outs.filterMap (fun o => o.color_fine)).isEmpty,
        !(outs.filterMap (fun o =>
          if feasible o.gradients = true ∧ feasible o.weights = true then
            some (o.gradients.getD 0) else none)).isEmpty,
        !(outs.filterMap (fun o => o.depth_sdf)).isEmpty,
        !(outs.filterMap (fun o => o.ncc_cost)).isEmpty⟩, ?_, hrgb, ?_, ?_, ?_⟩
    · show (if (outs.filterMap (fun o => o.color_fine)).isEmpty = true then _ else _) = _
      rw [if_neg hcond]
    · rw [filterMap_nonempty_iff]
      constructor
      · rintro ⟨o, ho, hfo⟩
        refine ⟨o, ho, ?_⟩
        by_cases hc : feasible o.gradients = true ∧ feasible o.weights = true
        · exact hc
        · rw [if_neg hc] at hfo
          cases hfo
      · rintro ⟨o, ho, hc⟩
        refine ⟨o, ho, ?_⟩
        rw [if_pos (show feasible o.gradients = true ∧ feasible o.weights = true from hc)]
        rfl
    · exact filterMap_nonempty_iff outs _
    · exact filterMap_nonempty_iff outs _
  · rfl

theorem claim_C9_witness :
    validateImageRun [⟨some 1, some 1, some 1, some 1, none, some 1⟩] =
      Except.ok ⟨true, true, false, true⟩ :=
  (claim_C9 [⟨some 1, some 1, some 1, some 1, none, some 1⟩]
    ⟨⟨some 1, some 1, some 1, some 1, none, some 1⟩,
      List.mem_cons_self _ _, rfl⟩).2

end NeuSRunner
